import Mathlib

/-!
Shallow embedding of `src/model.cpp` (the training orchestration of the
Splatting repository): the render pipeline `Model::forward`, the resolution
schedule `Model::getDownscaleFactor`, the density-control statistics engine
`Model::afterTrain`, and the geometry helper `projectionMatrix`.

Machine floats of the source are modelled as exact rationals (`ℚ`), except
for the trigonometric parts of `projectionMatrix` and the view-direction
normalization, which are modelled over `ℝ`.  The external GPU stages
(gaussian projection, spherical-harmonics color evaluation, rasterization)
are opaque collaborators in the source; they are modelled as arbitrary
function parameters, and `Model.forward` records in its result a trace of
which stages were invoked and with which claim-relevant arguments.
-/

namespace Splatting

/-- Modelled from the spec: the `Camera` class is declared in `model.hpp`,
which is absent from `src/`.  Per spec §3 a camera carries intrinsics
`fx, fy, cx, cy` and target `height`/`width`, plus a mutable
output-resolution scale applied and restored symmetrically around each
render call.  The pose is not needed by the claims settled here. -/
@[ext]
structure Camera where
  fx : ℚ
  fy : ℚ
  cx : ℚ
  cy : ℚ
  height : ℚ
  width : ℚ
  deriving DecidableEq

/-- Modelled from the spec: `Camera::scaleOutputResolution` is declared in
`model.hpp`, absent from `src/`.  Spec §3/§5: a mutable output-resolution
scale is applied to the camera's intrinsics and dimensions and must be
exactly undone after the render call; the scaling is modelled as exact
multiplication of all six resolution fields by the factor. -/
def Camera.scaleOutputResolution (c : Camera) (f : ℚ) : Camera :=
  { fx := c.fx * f, fy := c.fy * f, cx := c.cx * f, cy := c.cy * f,
    height := c.height * f, width := c.width * f }

/-- The model's parameters and configuration fields used by the claims
(declared in `model.hpp`; values observable in `model.cpp`).  `n` is the
number of primitives.  Parameter groups not inspected by any claim
(scales, quaternions, color coefficients, opacities) are inside the opaque
external-stage arguments and are not re-modelled here. -/
structure Model (n : ℕ) where
  means : Fin n → Fin 3 → ℚ
  backgroundColor : Fin 3 → ℚ
  numDownscales : ℕ
  resolutionSchedule : ℕ
  shDegree : ℕ
  shDegreeInterval : ℕ
  stopSplitAt : ℕ

/-- `Model::getDownscaleFactor` (model.cpp:154-156):
`pow(2, max(numDownscales - step / resolutionSchedule, 0))`.  The C++ `int`
arithmetic is modelled over `ℤ` (the subtraction may go negative; `toNat`
is the `max(·, 0)` clamp), with the nonnegative integer division written as
`Nat` division. -/
def Model.getDownscaleFactor {n : ℕ} (m : Model n) (step : ℕ) : ℕ :=
  2 ^ ((m.numDownscales : ℤ) - (step / m.resolutionSchedule : ℕ)).toNat

/-- `degreesToUse` (model.cpp:111): `min(step / shDegreeInterval, shDegree)`;
`step` is a nonnegative `int`, so C++ truncating division is `Nat`
division. -/
def Model.degreesToUse {n : ℕ} (m : Model n) (step : ℕ) : ℕ :=
  min (step / m.shDegreeInterval) m.shDegree

/-- Arguments of the `ProjectGaussians::apply` call (model.cpp:80-92) that
the claims inspect: the (possibly downscaled) camera intrinsics and output
dimensions, and the primitive positions.  The remaining arguments
(exponentiated scales, normalized quaternions, view and view-projection
matrices, tile bounds) flow only into the opaque external stage and are
abstracted into the stage function itself. -/
structure ProjCall (n : ℕ) where
  means : Fin n → Fin 3 → ℚ
  fx : ℚ
  fy : ℚ
  cx : ℚ
  cy : ℚ
  height : ℚ
  width : ℚ

/-- Results of the projection stage kept by `Model::forward`
(model.cpp:93-97): screen-space coordinates `xys` and per-primitive
projected `radii`.  `depths`, `conics` and `numTilesHit` flow unchanged
into the opaque rasterization stage and are abstracted into it. -/
structure ProjOut (n : ℕ) where
  xys : Fin n → Fin 2 → ℚ
  radii : Fin n → ℚ

/-- The three external GPU stages (spec §6), as opaque function
parameters.  `sh` receives the spherical-harmonic degree actually used;
`rasterize` receives the evaluated colors and the output height/width in
effect at the call; everything else those stages read is closed over. -/
structure Externals (n : ℕ) where
  project : ProjCall n → ProjOut n
  sh : ℕ → Fin n → Fin 3 → ℚ
  rasterize : (Fin n → Fin 3 → ℚ) → ℚ → ℚ → ℕ → ℕ → Fin 3 → ℚ

/-- A rendered image: its height/width (taken from the camera fields at
the point the image is formed) and its pixel contents. -/
structure Image where
  height : ℚ
  width : ℚ
  data : ℕ → ℕ → Fin 3 → ℚ

/-- Result and side-effect trace of one `Model::forward` call: the
returned image, the camera state after the call (the source mutates the
camera in place), the stored transients `xys`, `radii`, `lastHeight`,
`lastWidth`, the arguments of the projection call, the clip planes passed
to `projectionMatrix` (model.cpp:72), and whether the color-evaluation and
rasterization stages ran. -/
structure ForwardOut (n : ℕ) where
  image : Image
  cam : Camera
  xys : Fin n → Fin 2 → ℚ
  radii : Fin n → ℚ
  lastHeight : ℚ
  lastWidth : ℚ
  projCall : ProjCall n
  zNear : ℚ
  zFar : ℚ
  shCalled : Bool
  shDegreeUsed : Option ℕ
  rastCalled : Bool

/-- The camera after `cam.scaleOutputResolution(scaleFactor)`
(model.cpp:48-49) with `scaleFactor = 1 / getDownscaleFactor(step)`: the
camera state in effect for the projection and rasterization calls. -/
def Model.downscaledCam {n : ℕ} (m : Model n) (cam : Camera) (step : ℕ) :
    Camera :=
  cam.scaleOutputResolution (1 / (m.getDownscaleFactor step : ℚ))

/-- The claim-relevant arguments of the `ProjectGaussians::apply` call in
`Model::forward` (model.cpp:80-92): the primitive positions and the
downscaled camera's intrinsics and dimensions. -/
def Model.projCallOf {n : ℕ} (m : Model n) (cam : Camera) (step : ℕ) :
    ProjCall n :=
  { means := m.means, fx := (m.downscaledCam cam step).fx,
    fy := (m.downscaledCam cam step).fy, cx := (m.downscaledCam cam step).cx,
    cy := (m.downscaledCam cam step).cy,
    height := (m.downscaledCam cam step).height,
    width := (m.downscaledCam cam step).width }

/-- The projection-stage results received by `Model::forward`
(model.cpp:93-97). -/
def Model.projOut {n : ℕ} (m : Model n) (ext : Externals n) (cam : Camera)
    (step : ℕ) : ProjOut n :=
  ext.project (m.projCallOf cam step)

/-- `Model::forward` (model.cpp:46-134).  Scales the camera resolution by
the reciprocal of the downscale factor (line 48-49), records
`lastHeight`/`lastWidth` (lines 62-63), invokes the projection stage with
the downscaled camera (lines 80-92), and branches on
`radii.sum() == 0` (line 100): on the degenerate path it restores the
resolution and returns the background color broadcast to the camera's
(restored) height and width (lines 101-103); otherwise it evaluates
spherical harmonics at degree `min(step / shDegreeInterval, shDegree)`
(lines 111-112), offsets by `+0.5` and clamps below at `0` (line 113),
rasterizes at the downscaled resolution and clamps above at `1`
(lines 116-128), then restores the resolution (line 131). -/
def Model.forward {n : ℕ} (ext : Externals n) (m : Model n) (cam : Camera)
    (step : ℕ) : ForwardOut n :=
  let scaleFactor : ℚ := 1 / (m.getDownscaleFactor step : ℚ)
  let cam1 := m.downscaledCam cam step
  let lastH := cam1.height
  let lastW := cam1.width
  let pc : ProjCall n := m.projCallOf cam step
  let p := m.projOut ext cam step
  if (∑ i, p.radii i) = 0 then
    let cam2 := cam1.scaleOutputResolution (1 / scaleFactor)
    { image := { height := cam2.height, width := cam2.width,
                 data := fun _ _ k => m.backgroundColor k },
      cam := cam2, xys := p.xys, radii := p.radii,
      lastHeight := lastH, lastWidth := lastW, projCall := pc,
      zNear := 1 / 1000, zFar := 1000,
      shCalled := false, shDegreeUsed := none, rastCalled := false }
  else
    let deg := m.degreesToUse step
    let rgbs : Fin n → Fin 3 → ℚ := fun i k => max (ext.sh deg i k + 1 / 2) 0
    let raw := ext.rasterize rgbs cam1.height cam1.width
    let img : Image :=
      { height := cam1.height, width := cam1.width,
        data := fun r c k => min (raw r c k) 1 }
    let cam2 := cam1.scaleOutputResolution (1 / scaleFactor)
    { image := img, cam := cam2, xys := p.xys, radii := p.radii,
      lastHeight := lastH, lastWidth := lastW, projCall := pc,
      zNear := 1 / 1000, zFar := 1000,
      shCalled := true, shDegreeUsed := some deg, rastCalled := true }

/-- Running statistics of the density-control engine (fields of `Model`
declared in `model.hpp`).  An empty tensor (`!tensor.numel()`,
model.cpp:165 and 173) marks the lazily-initialized state and is modelled
as `none`; `xysGradNorm` and `visCounts` are always initialized together
(model.cpp:166-167) and are therefore modelled as one optional pair. -/
structure TrainState (n : ℕ) where
  gradStats : Option ((Fin n → ℚ) × (Fin n → ℚ))
  max2DSize : Option (Fin n → ℚ)

/-- Per-step inputs read by `Model::afterTrain`: the projected radii and
`lastHeight`/`lastWidth` stored by the preceding `Model::forward` call,
and the per-primitive screen-space gradient magnitudes
`‖xys.grad()‖₂` (model.cpp:164) supplied by the external autodiff
engine. -/
structure StepData (n : ℕ) where
  radii : Fin n → ℚ
  grads : Fin n → ℚ
  lastHeight : ℚ
  lastWidth : ℚ

/-- How one `Model::afterTrain` call ends: either the process terminates
via `exit(1)` after printing `max2DSize` (model.cpp:182-183), carrying
the printed tensor, or control returns normally to the caller. -/
inductive AfterTrainOutcome (n : ℕ) where
  | exited (printed : Fin n → ℚ)
  | returned
  deriving DecidableEq

/-- The initial statistics state at training start: all three statistics
tensors empty (lazily initialized on first use, spec §3). -/
def initialTrainState (n : ℕ) : TrainState n :=
  { gradStats := none, max2DSize := none }

/-- Reads `max2DSize` with the uninitialized state standing for the
all-zeros tensor it is initialized to (model.cpp:173-175). -/
def TrainState.max2DSizeD {n : ℕ} (s : TrainState n) : Fin n → ℚ :=
  s.max2DSize.getD fun _ => 0

/-- `Model::afterTrain` (model.cpp:158-194), parametrized by
`stopSplitAt`.  For `step < stopSplitAt` (line 161): the visibility mask
is `radii > 0` (line 162); on first call the accumulator is initialized
from this step's magnitudes and the counts to all-ones (lines 165-167),
otherwise visible primitives get their count incremented and their
magnitude accumulated (lines 169-170); `max2DSize` is lazily zeroed
(lines 173-175) and updated, for visible primitives, with the elementwise
maximum against `radius / max(lastHeight, lastWidth)` (lines 177-180);
then the branch prints `max2DSize` and calls `exit(1)` (lines 182-183).
For `step ≥ stopSplitAt` the statistics are untouched; the refinement
gate (lines 186-193) computes its schedule condition but its body is
empty, so the call returns with no observable effect. -/
def afterTrain {n : ℕ} (stopSplitAt : ℕ) (step : ℕ) (d : StepData n)
    (s : TrainState n) : TrainState n × AfterTrainOutcome n :=
  if step < stopSplitAt then
    let upd : (Fin n → ℚ) × (Fin n → ℚ) :=
      match s.gradStats with
      | none => (d.grads, fun _ => 1)
      | some (g, c) =>
          (fun i => if 0 < d.radii i then d.grads i + g i else g i,
           fun i => if 0 < d.radii i then c i + 1 else c i)
    let m0 := s.max2DSizeD
    let m : Fin n → ℚ := fun i =>
      if 0 < d.radii i then
        max (m0 i) (d.radii i / max d.lastHeight d.lastWidth)
      else m0 i
    ({ gradStats := some upd, max2DSize := some m },
     AfterTrainOutcome.exited m)
  else (s, AfterTrainOutcome.returned)

/-- The statistics state after a sequence of `Model::afterTrain` calls,
each given as a pair of the step index and that step's per-step data. -/
def runAfterTrain {n : ℕ} (stopSplitAt : ℕ) (l : List (ℕ × StepData n))
    (s : TrainState n) : TrainState n :=
  l.foldl (fun st p => (afterTrain stopSplitAt p.1 p.2 st).1) s

/-- Reads the accumulator `xysGradNorm[i]`, as `0` while uninitialized. -/
def TrainState.gradAccumD {n : ℕ} (s : TrainState n) (i : Fin n) : ℚ :=
  match s.gradStats with
  | none => 0
  | some (g, _) => g i

/-- Reads the visibility count `visCounts[i]`, as `0` while
uninitialized. -/
def TrainState.visCountD {n : ℕ} (s : TrainState n) (i : Fin n) : ℚ :=
  match s.gradStats with
  | none => 0
  | some (_, c) => c i

/-- The running mean tracked for primitive `i`:
`xysGradNorm[i] / visCounts[i]` (spec §3). -/
def TrainState.gradMean {n : ℕ} (s : TrainState n) (i : Fin n) : ℚ :=
  s.gradAccumD i / s.visCountD i

/-- The arithmetic mean, over exactly the steps of `l` in which primitive
`i` was visible (`radii > 0`), of that step's gradient magnitude — the
quantity the spec's running-mean property asserts. -/
def visibleMean {n : ℕ} (l : List (ℕ × StepData n)) (i : Fin n) : ℚ :=
  let vis := l.filter fun p => 0 < p.2.radii i
  (vis.map fun p => p.2.grads i).sum / (vis.length : ℚ)

/-- `viewDir` embeds model.cpp:109-110: the view direction passed to the
spherical-harmonics stage is `means - T` — the primitive's mean minus the
camera position (the camera-to-world translation) — divided by its
Euclidean norm. -/
noncomputable def viewDir (mean camPos : Fin 3 → ℝ) : Fin 3 → ℝ :=
  fun k => (mean k - camPos k) / Real.sqrt (∑ j, (mean j - camPos j) ^ 2)

/-- Written from the spec's words, for comparison with `viewDir`: "unit
vectors from primitive mean to camera position", i.e. the camera position
minus the mean, normalized. -/
noncomputable def specViewDir (mean camPos : Fin 3 → ℝ) : Fin 3 → ℝ :=
  fun k => (camPos k - mean k) / Real.sqrt (∑ j, (camPos j - mean j) ^ 2)

/-- `projectionMatrix` (model.cpp:22-34): the OpenGL perspective
projection matrix from near/far clip planes and the field-of-view
half-angles, with `t = zNear·tan(fovY/2)`, `b = -t`,
`r = zNear·tan(fovX/2)`, `l = -r`. -/
noncomputable def projectionMatrix (zNear zFar fovX fovY : ℝ) :
    Matrix (Fin 4) (Fin 4) ℝ :=
  let t := zNear * Real.tan (0.5 * fovY)
  let b := -t
  let r := zNear * Real.tan (0.5 * fovX)
  let l := -r
  !![2 * zNear / (r - l), 0, (r + l) / (r - l), 0;
     0, 2 * zNear / (t - b), (t + b) / (t - b), 0;
     0, 0, (zFar + zNear) / (zFar - zNear), -1 * zFar * zNear / (zFar - zNear);
     0, 0, 1, 0]

/-- The divisor `r - l` of `projectionMatrix` (model.cpp:26-29):
`r = zNear·tan(fovX/2)` and `l = -r`, so the span is `2·zNear·tan(fovX/2)`. -/
noncomputable def rlSpan (zNear fovX : ℝ) : ℝ :=
  2 * (zNear * Real.tan (0.5 * fovX))

/-- The divisor `t - b` of `projectionMatrix` (model.cpp:24-30):
`t = zNear·tan(fovY/2)` and `b = -t`, so the span is `2·zNear·tan(fovY/2)`. -/
noncomputable def tbSpan (zNear fovY : ℝ) : ℝ :=
  2 * (zNear * Real.tan (0.5 * fovY))

/-- Concrete external stages whose projection stage reports every radius
as `0` (everything culled), for exercising the degenerate path. -/
def zeroExternals : Externals 1 :=
  { project := fun _ => { xys := fun _ _ => 0, radii := fun _ => 0 },
    sh := fun _ _ _ => 0,
    rasterize := fun _ _ _ _ _ _ => 0 }

/-- Concrete external stages whose projection stage reports every radius
as `1` (everything visible), for exercising the normal path. -/
def oneExternals : Externals 1 :=
  { project := fun _ => { xys := fun _ _ => 0, radii := fun _ => 1 },
    sh := fun _ _ _ => 0,
    rasterize := fun _ _ _ _ _ _ => 0 }

/-- A concrete camera for instantiating the theorems. -/
def testCam : Camera :=
  { fx := 1, fy := 1, cx := 1, cy := 1, height := 4, width := 4 }

/-- A concrete single-primitive model for instantiating the theorems:
one downscale level, so step 0 renders at half resolution. -/
def testModel : Model 1 :=
  { means := fun _ _ => 0, backgroundColor := fun _ => 1 / 2,
    numDownscales := 1, resolutionSchedule := 100, shDegree := 3,
    shDegreeInterval := 1000, stopSplitAt := 5 }

/-- Step data for the counterexample run: at the initialization step the
primitive is invisible (radius 0) with zero gradient magnitude. -/
def cexStep1 : StepData 1 :=
  { radii := fun _ => 0, grads := fun _ => 0, lastHeight := 10,
    lastWidth := 10 }

/-- Step data for the counterexample run: at the second step the
primitive is visible with gradient magnitude 4. -/
def cexStep2 : StepData 1 :=
  { radii := fun _ => 1, grads := fun _ => 4, lastHeight := 10,
    lastWidth := 10 }

/-- The two-step counterexample run (both steps below `stopSplitAt`). -/
def cexRun : List (ℕ × StepData 1) := [(0, cexStep1), (1, cexStep2)]

theorem getDownscaleFactor_pos {n : ℕ} (m : Model n) (step : ℕ) :
    0 < m.getDownscaleFactor step :=
  pow_pos (by norm_num) _

theorem getDownscaleFactor_cast_ne_zero {n : ℕ} (m : Model n) (step : ℕ) :
    ((m.getDownscaleFactor step : ℚ)) ≠ 0 := by
  exact_mod_cast (getDownscaleFactor_pos m step).ne'

theorem scaleOutputResolution_inv (c : Camera) (f : ℚ) (hf : f ≠ 0) :
    (c.scaleOutputResolution f).scaleOutputResolution (1 / f) = c := by
  ext <;> simp [Camera.scaleOutputResolution] <;> field_simp

theorem downscaledCam_restore {n : ℕ} (m : Model n) (cam : Camera)
    (step : ℕ) :
    (m.downscaledCam cam step).scaleOutputResolution
      (1 / (1 / (m.getDownscaleFactor step : ℚ))) = cam :=
  scaleOutputResolution_inv cam _
    (one_div_ne_zero (getDownscaleFactor_cast_ne_zero m step))

theorem forward_radii {n : ℕ} (ext : Externals n) (m : Model n)
    (cam : Camera) (step : ℕ) :
    (Model.forward ext m cam step).radii = (m.projOut ext cam step).radii := by
  unfold Model.forward
  dsimp only
  split <;> rfl

theorem forward_projCall {n : ℕ} (ext : Externals n) (m : Model n)
    (cam : Camera) (step : ℕ) :
    (Model.forward ext m cam step).projCall = m.projCallOf cam step := by
  unfold Model.forward
  dsimp only
  split <;> rfl

/-- C2: on every exit path of `Model::forward` (normal and degenerate),
the camera's intrinsics and output dimensions after the call equal their
pre-call values: the scaling by `1/getDownscaleFactor(step)` is exactly
reverted by the final `scaleOutputResolution(1/scaleFactor)`. -/
theorem forward_restores_camera {n : ℕ} (ext : Externals n) (m : Model n)
    (cam : Camera) (step : ℕ) :
    (Model.forward ext m cam step).cam = cam := by
  unfold Model.forward
  dsimp only
  split <;> exact downscaledCam_restore m cam step

/-- C3: `Model::afterTrain` with `step < stopSplitAt` unconditionally
terminates the process (printing the updated `max2DSize` and calling
`exit(1)`) instead of returning control; it returns normally exactly when
`step ≥ stopSplitAt`. -/
theorem afterTrain_terminates {n : ℕ} (stopSplitAt step : ℕ)
    (d : StepData n) (s : TrainState n) :
    (afterTrain stopSplitAt step d s).2 =
      if step < stopSplitAt then
        AfterTrainOutcome.exited ((afterTrain stopSplitAt step d s).1.max2DSizeD)
      else AfterTrainOutcome.returned := by
  by_cases h : step < stopSplitAt
  · simp [afterTrain, h, TrainState.max2DSizeD]
  · simp [afterTrain, h]

/-- C6: the spherical-harmonic degree used by `Model::forward` on the
non-degenerate path equals `min(step / shDegreeInterval, shDegree)`; as a
function of the step it is monotonically non-decreasing and never exceeds
`shDegree`. -/
theorem shDegree_schedule {n : ℕ} (ext : Externals n) (m : Model n)
    (cam : Camera) (s s' : ℕ) :
    ((∑ i, (Model.forward ext m cam s).radii i) ≠ 0 →
      (Model.forward ext m cam s).shDegreeUsed =
        some (min (s / m.shDegreeInterval) m.shDegree)) ∧
    (s ≤ s' → m.degreesToUse s ≤ m.degreesToUse s') ∧
    m.degreesToUse s ≤ m.shDegree := by
  refine ⟨fun h => ?_, fun h => ?_, min_le_right _ _⟩
  · rw [forward_radii] at h
    unfold Model.forward
    dsimp only
    rw [if_neg h]
    rfl
  · exact min_le_min (Nat.div_le_div_right h) le_rfl

/-- C6 witness: at step 3 with every radius projected as 1 the forward
pass uses degree `min(3 / 1000, 3) = 0`, and the degree at step 3 is at
most the degree at step 5. -/
theorem shDegree_schedule_witness :
    (Model.forward oneExternals testModel testCam 3).shDegreeUsed = some 0 ∧
    testModel.degreesToUse 3 ≤ testModel.degreesToUse 5 := by
  have h := shDegree_schedule oneExternals testModel testCam 3 5
  refine ⟨(h.1 ?_).trans (by rfl), h.2.1 (by norm_num)⟩
  rw [forward_radii]
  simp [Model.projOut, Model.projCallOf, oneExternals, Fin.sum_univ_one]

/-- C7: `Model::getDownscaleFactor(s)` equals
`2 ^ max(numDownscales - s / resolutionSchedule, 0)` in `int` arithmetic,
and `Model::forward` passes the projection stage an output resolution
scaled by the reciprocal of this factor. -/
theorem downscale_schedule {n : ℕ} (ext : Externals n) (m : Model n)
    (cam : Camera) (s : ℕ) :
    ((m.getDownscaleFactor s : ℤ) =
      2 ^ (max ((m.numDownscales : ℤ) - (s : ℤ) / (m.resolutionSchedule : ℤ)) 0).toNat) ∧
    (Model.forward ext m cam s).projCall.height =
      cam.height * (1 / (m.getDownscaleFactor s : ℚ)) ∧
    (Model.forward ext m cam s).projCall.width =
      cam.width * (1 / (m.getDownscaleFactor s : ℚ)) := by
  refine ⟨?_, ?_, ?_⟩
  · unfold Model.getDownscaleFactor
    rw [← Int.ofNat_ediv]
    push_cast
    congr 1
    omega
  · rw [forward_projCall]
    rfl
  · rw [forward_projCall]
    rfl

/-- C1: whenever the projection stage returns all projected radii equal
to zero, `Model::forward` returns the background color broadcast to the
camera's (height, width, channels) shape, skips the color-evaluation and
rasterization stages, and leaves the camera's resolution fields equal to
their pre-call values. -/
theorem forward_degenerate {n : ℕ} (ext : Externals n) (m : Model n)
    (cam : Camera) (step : ℕ)
    (h : ∀ i, (Model.forward ext m cam step).radii i = 0) :
    (∀ r c k, (Model.forward ext m cam step).image.data r c k =
      m.backgroundColor k) ∧
    (Model.forward ext m cam step).image.height = cam.height ∧
    (Model.forward ext m cam step).image.width = cam.width ∧
    (Model.forward ext m cam step).shCalled = false ∧
    (Model.forward ext m cam step).rastCalled = false ∧
    (Model.forward ext m cam step).cam = cam := by
  simp only [forward_radii] at h
  have h' : (∑ i, (m.projOut ext cam step).radii i) = 0 :=
    Finset.sum_eq_zero fun i _ => h i
  unfold Model.forward
  dsimp only
  rw [if_pos h']
  exact ⟨fun r c k => rfl,
    congrArg Camera.height (downscaledCam_restore m cam step),
    congrArg Camera.width (downscaledCam_restore m cam step),
    rfl, rfl, downscaledCam_restore m cam step⟩

/-- C1 witness: a camera of height 4 and background 1/2 with a projection
stage reporting all radii zero yields the background pixel value, the
full-resolution shape, skipped stages, and a restored camera. -/
theorem forward_degenerate_witness :
    (Model.forward zeroExternals testModel testCam 0).image.data 0 0 0 = 1 / 2 ∧
    (Model.forward zeroExternals testModel testCam 0).image.height = 4 ∧
    (Model.forward zeroExternals testModel testCam 0).shCalled = false ∧
    (Model.forward zeroExternals testModel testCam 0).cam = testCam := by
  have h := forward_degenerate zeroExternals testModel testCam 0
    (fun i => by rw [forward_radii]; rfl)
  exact ⟨(h.1 0 0 0).trans rfl, h.2.1.trans rfl, h.2.2.2.1, h.2.2.2.2.2⟩

/-- C9: on the degenerate path (sum of projected radii zero) the camera's
resolution is restored before the background image's shape is read from
`cam.height`/`cam.width`, so the returned image carries the pre-call
height and width and not the downscaled dimensions that were passed to
the projection stage. -/
theorem forward_degenerate_shape {n : ℕ} (ext : Externals n) (m : Model n)
    (cam : Camera) (step : ℕ)
    (h : (∑ i, (Model.forward ext m cam step).radii i) = 0) :
    (Model.forward ext m cam step).image.height = cam.height ∧
    (Model.forward ext m cam step).image.width = cam.width ∧
    (Model.forward ext m cam step).projCall.height =
      cam.height / (m.getDownscaleFactor step : ℚ) ∧
    ((m.getDownscaleFactor step : ℚ) ≠ 1 → cam.height ≠ 0 →
      (Model.forward ext m cam step).projCall.height ≠ cam.height) := by
  rw [forward_radii] at h
  refine ⟨?_, ?_, ?_, ?_⟩
  · unfold Model.forward
    dsimp only
    rw [if_pos h]
    exact congrArg Camera.height (downscaledCam_restore m cam step)
  · unfold Model.forward
    dsimp only
    rw [if_pos h]
    exact congrArg Camera.width (downscaledCam_restore m cam step)
  · rw [forward_projCall]
    exact mul_one_div cam.height _
  · intro h1 h0 hc
    apply h1
    rw [forward_projCall] at hc
    have hc' : cam.height * (1 / (m.getDownscaleFactor step : ℚ)) = cam.height := hc
    rw [mul_one_div] at hc'
    have hF := getDownscaleFactor_cast_ne_zero m step
    field_simp at hc'
    exact_mod_cast hc'

/-- C9 witness: with one downscale level at step 0 the projection stage
sees height 2 while the returned background image has the restored
height 4. -/
theorem forward_degenerate_shape_witness :
    (Model.forward zeroExternals testModel testCam 0).image.height = 4 ∧
    (Model.forward zeroExternals testModel testCam 0).projCall.height ≠
      testCam.height := by
  have h := forward_degenerate_shape zeroExternals testModel testCam 0
    (by rw [forward_radii]; simp [Model.projOut, zeroExternals])
  exact ⟨h.1.trans rfl,
    h.2.2.2 (by norm_num [testModel, Model.getDownscaleFactor]) (by norm_num [testCam])⟩

/-- C5 counterexample: for a primitive at (1,0,0) seen from a camera at
the origin, the view direction computed by model.cpp:109-110 is the unit
vector from the camera toward the mean, not the spec's "unit vector from
primitive mean to camera position". -/
theorem viewDir_ne_specViewDir :
    viewDir ![1, 0, 0] ![0, 0, 0] 0 ≠ specViewDir ![1, 0, 0] ![0, 0, 0] 0 := by
  unfold viewDir specViewDir
  norm_num [Fin.sum_univ_three, Real.sqrt_one]

/-- C5 amended: the view direction passed to the spherical-harmonics
stage is the unit vector from the camera position to the primitive's mean
(`means - T`, normalized) — componentwise the negation of the direction
the spec states. -/
theorem viewDir_eq_neg_specViewDir (mean camPos : Fin 3 → ℝ) (k : Fin 3) :
    viewDir mean camPos k = -(specViewDir mean camPos k) := by
  unfold viewDir specViewDir
  have hden : (∑ j, (camPos j - mean j) ^ 2) = ∑ j, (mean j - camPos j) ^ 2 :=
    Finset.sum_congr rfl fun j _ => by ring
  rw [hden, ← neg_div, neg_sub]

/-- C10: every `Model::forward` call builds the projection matrix with
the fixed clip planes `zNear = 0.001` and `zFar = 1000`, which satisfy
`0 < zNear < zFar`; and for any field-of-view angles in `(0, π)` the
divisors `r - l`, `t - b` and `zFar - zNear` appearing in
`projectionMatrix` are nonzero. -/
theorem projection_clip_planes {n : ℕ} (ext : Externals n) (m : Model n)
    (cam : Camera) (step : ℕ) (fovX fovY : ℝ)
    (hx0 : 0 < fovX) (hxp : fovX < Real.pi)
    (hy0 : 0 < fovY) (hyp : fovY < Real.pi) :
    (Model.forward ext m cam step).zNear = 1 / 1000 ∧
    (Model.forward ext m cam step).zFar = 1000 ∧
    ((0 : ℚ) < 1 / 1000 ∧ (1 / 1000 : ℚ) < 1000) ∧
    rlSpan (1 / 1000) fovX ≠ 0 ∧
    tbSpan (1 / 1000) fovY ≠ 0 ∧
    ((1000 : ℝ) - 1 / 1000) ≠ 0 ∧
    projectionMatrix (1 / 1000) 1000 fovX fovY 0 0 =
      2 * (1 / 1000) / rlSpan (1 / 1000) fovX ∧
    projectionMatrix (1 / 1000) 1000 fovX fovY 1 1 =
      2 * (1 / 1000) / tbSpan (1 / 1000) fovY := by
  have htx : 0 < Real.tan (0.5 * fovX) :=
    Real.tan_pos_of_pos_of_lt_pi_div_two (by linarith) (by linarith)
  have hty : 0 < Real.tan (0.5 * fovY) :=
    Real.tan_pos_of_pos_of_lt_pi_div_two (by linarith) (by linarith)
  refine ⟨?_, ?_, by norm_num, ?_, ?_, by norm_num, ?_, ?_⟩
  · unfold Model.forward
    dsimp only
    split <;> rfl
  · unfold Model.forward
    dsimp only
    split <;> rfl
  · exact (mul_pos two_pos (mul_pos (by norm_num) htx)).ne'
  · exact (mul_pos two_pos (mul_pos (by norm_num) hty)).ne'
  · unfold projectionMatrix rlSpan
    norm_num [Matrix.cons_val', Matrix.cons_val_zero, Matrix.head_cons]
    ring_nf
  · unfold projectionMatrix tbSpan
    norm_num [Matrix.cons_val', Matrix.cons_val_zero, Matrix.cons_val_one,
      Matrix.head_cons, Matrix.head_fin_const]
    ring_nf

/-- C10 witness: at field-of-view π/2 in both axes the clip planes are
recorded and the `r - l` divisor is nonzero. -/
theorem projection_clip_planes_witness :
    (Model.forward zeroExternals testModel testCam 0).zNear = 1 / 1000 ∧
    rlSpan (1 / 1000) (Real.pi / 2) ≠ 0 := by
  have h := projection_clip_planes zeroExternals testModel testCam 0
    (Real.pi / 2) (Real.pi / 2)
    (by linarith [Real.pi_pos]) (by linarith [Real.pi_pos])
    (by linarith [Real.pi_pos]) (by linarith [Real.pi_pos])
  exact ⟨h.1, h.2.2.2.1⟩

theorem runAfterTrain_cons {n : ℕ} (stop : ℕ) (p : ℕ × StepData n)
    (l : List (ℕ × StepData n)) (s : TrainState n) :
    runAfterTrain stop (p :: l) s =
      runAfterTrain stop l (afterTrain stop p.1 p.2 s).1 := rfl

theorem runAfterTrain_append {n : ℕ} (stop : ℕ)
    (l₁ l₂ : List (ℕ × StepData n)) (s : TrainState n) :
    runAfterTrain stop (l₁ ++ l₂) s =
      runAfterTrain stop l₂ (runAfterTrain stop l₁ s) :=
  List.foldl_append _ _ _ _

theorem runAfterTrain_accum {n : ℕ} (stop : ℕ) (l : List (ℕ × StepData n)) :
    ∀ (g c : Fin n → ℚ) (mm : Option (Fin n → ℚ)) (i : Fin n),
    (∀ p ∈ l, p.1 < stop) →
    (runAfterTrain stop l
        { gradStats := some (g, c), max2DSize := mm }).gradAccumD i =
      g i + ((l.filter fun p => 0 < p.2.radii i).map fun p => p.2.grads i).sum ∧
    (runAfterTrain stop l
        { gradStats := some (g, c), max2DSize := mm }).visCountD i =
      c i + ((l.filter fun p => 0 < p.2.radii i).length : ℚ) := by
  induction l with
  | nil =>
    intro g c mm i _
    simp [runAfterTrain, TrainState.gradAccumD, TrainState.visCountD]
  | cons p rest ih =>
    intro g c mm i hl
    have hp : p.1 < stop := hl p (List.mem_cons_self p rest)
    have hrest : ∀ q ∈ rest, q.1 < stop := fun q hq =>
      hl q (List.mem_cons_of_mem p hq)
    rw [runAfterTrain_cons]
    have hstate :
        (afterTrain stop p.1 p.2
          { gradStats := some (g, c), max2DSize := mm }).1 =
        { gradStats := some
            (fun j => if 0 < p.2.radii j then p.2.grads j + g j else g j,
             fun j => if 0 < p.2.radii j then c j + 1 else c j),
          max2DSize := (afterTrain stop p.1 p.2
            { gradStats := some (g, c), max2DSize := mm }).1.max2DSize } := by
      simp [afterTrain, hp]
    rw [hstate]
    have h2 := ih (fun j => if 0 < p.2.radii j then p.2.grads j + g j else g j)
      (fun j => if 0 < p.2.radii j then c j + 1 else c j)
      ((afterTrain stop p.1 p.2
        { gradStats := some (g, c), max2DSize := mm }).1.max2DSize) i hrest
    refine ⟨h2.1.trans ?_, h2.2.trans ?_⟩
    · by_cases hv : 0 < p.2.radii i
      · simp [List.filter_cons, hv]
        ring
      · simp [List.filter_cons, hv]
    · by_cases hv : 0 < p.2.radii i
      · simp [List.filter_cons, hv]
        ring
      · simp [List.filter_cons, hv]

/-- C4 corrected, amended statement: starting from uninitialized
statistics, the first `afterTrain` call below `stopSplitAt` seeds the
accumulator with that step's magnitudes and every count with 1 regardless
of visibility; afterwards only visible steps contribute.  Hence for every
primitive `i` the accumulator equals the initialization-step magnitude
plus the magnitudes of the subsequent visible steps and the count equals
1 plus their number; the ratio equals the arithmetic mean over exactly
the visible steps whenever primitive `i` is visible at the
initialization step; and a primitive never visible keeps count 1 with
its accumulator untouched after initialization. -/
theorem gradStats_running_mean {n : ℕ} (stop : ℕ) (p₀ : ℕ × StepData n)
    (rest : List (ℕ × StepData n)) (i : Fin n)
    (hl : ∀ p ∈ p₀ :: rest, p.1 < stop) :
    (runAfterTrain stop (p₀ :: rest) (initialTrainState n)).gradAccumD i =
      p₀.2.grads i +
        ((rest.filter fun p => 0 < p.2.radii i).map fun p => p.2.grads i).sum ∧
    (runAfterTrain stop (p₀ :: rest) (initialTrainState n)).visCountD i =
      1 + ((rest.filter fun p => 0 < p.2.radii i).length : ℚ) ∧
    (0 < p₀.2.radii i →
      (runAfterTrain stop (p₀ :: rest) (initialTrainState n)).gradMean i =
        visibleMean (p₀ :: rest) i) ∧
    ((∀ p ∈ p₀ :: rest, ¬ 0 < p.2.radii i) →
      (runAfterTrain stop (p₀ :: rest) (initialTrainState n)).gradAccumD i =
          p₀.2.grads i ∧
        (runAfterTrain stop (p₀ :: rest) (initialTrainState n)).visCountD i = 1) := by
  have hp : p₀.1 < stop := hl p₀ (List.mem_cons_self p₀ rest)
  have hrest : ∀ q ∈ rest, q.1 < stop := fun q hq =>
    hl q (List.mem_cons_of_mem p₀ hq)
  rw [runAfterTrain_cons]
  have hstate :
      (afterTrain stop p₀.1 p₀.2 (initialTrainState n)).1 =
      { gradStats := some (p₀.2.grads, fun _ => (1 : ℚ)),
        max2DSize := (afterTrain stop p₀.1 p₀.2
          (initialTrainState n)).1.max2DSize } := by
    simp [afterTrain, initialTrainState, hp]
  rw [hstate]
  have h2 := runAfterTrain_accum stop rest p₀.2.grads (fun _ => 1)
    ((afterTrain stop p₀.1 p₀.2 (initialTrainState n)).1.max2DSize) i hrest
  refine ⟨h2.1, h2.2, fun hv => ?_, fun hnv => ?_⟩
  · unfold TrainState.gradMean visibleMean
    rw [h2.1, h2.2]
    simp [List.filter_cons, hv]
    ring_nf
  · have hfil : (rest.filter fun p => 0 < p.2.radii i) = [] := by
      rw [List.filter_eq_nil_iff]
      intro q hq
      simpa using hnv q (List.mem_cons_of_mem p₀ hq)
    rw [h2.1, h2.2, hfil]
    norm_num

/-- C4 amended witness: on a concrete run whose primitive is visible at
the initialization step (radius 1, magnitude 4) and at the second step,
the tracked ratio equals the arithmetic mean over the visible steps. -/
theorem gradStats_running_mean_witness :
    (runAfterTrain 5 [(0, cexStep2), (1, cexStep2)]
        (initialTrainState 1)).gradMean 0 =
      visibleMean [(0, cexStep2), (1, cexStep2)] 0 := by
  have h := gradStats_running_mean 5 (0, cexStep2) [(1, cexStep2)] 0
    (by simp [cexStep2])
  exact h.2.2.1 (by norm_num [cexStep2])

/-- C4 counterexample: a primitive invisible at the initialization step
(radius 0, gradient magnitude 0) and visible at the second step with
magnitude 4 ends with accumulator 4 and count 2, so the tracked ratio is
2 while the arithmetic mean over exactly the visible steps is 4. -/
theorem gradMean_ne_visibleMean :
    (runAfterTrain 5 cexRun (initialTrainState 1)).gradMean 0 = 2 ∧
    visibleMean cexRun 0 = 4 ∧ (2 : ℚ) ≠ 4 := by
  refine ⟨?_, ?_, by norm_num⟩
  · norm_num [cexRun, runAfterTrain, afterTrain, initialTrainState, cexStep1,
      cexStep2, TrainState.gradMean, TrainState.gradAccumD, TrainState.visCountD]
  · norm_num [visibleMean, cexRun, cexStep1, cexStep2, List.filter_cons]

theorem afterTrain_max2DSizeD_le {n : ℕ} (stop step : ℕ) (d : StepData n)
    (s : TrainState n) (i : Fin n) :
    s.max2DSizeD i ≤ ((afterTrain stop step d s).1).max2DSizeD i := by
  unfold afterTrain
  split
  · show s.max2DSizeD i ≤ (TrainState.max2DSizeD _) i
    by_cases hv : 0 < d.radii i
    · simp [TrainState.max2DSizeD, hv, le_max_left]
    · simp [TrainState.max2DSizeD, hv]
  · exact le_refl _

theorem runAfterTrain_max2DSizeD_le {n : ℕ} (stop : ℕ)
    (l : List (ℕ × StepData n)) :
    ∀ (s : TrainState n) (i : Fin n),
    s.max2DSizeD i ≤ (runAfterTrain stop l s).max2DSizeD i := by
  induction l with
  | nil => intro s i; exact le_refl _
  | cons p rest ih =>
    intro s i
    rw [runAfterTrain_cons]
    exact le_trans (afterTrain_max2DSizeD_le stop p.1 p.2 s i) (ih _ i)

theorem afterTrain_max2DSizeD_le_one {n : ℕ} (stop step : ℕ)
    (d : StepData n) (s : TrainState n) (i : Fin n)
    (hs : s.max2DSizeD i ≤ 1)
    (hr : d.radii i ≤ max d.lastHeight d.lastWidth) :
    ((afterTrain stop step d s).1).max2DSizeD i ≤ 1 := by
  unfold afterTrain
  split
  · show (TrainState.max2DSizeD _) i ≤ 1
    by_cases hv : 0 < d.radii i
    · have hw : 0 < max d.lastHeight d.lastWidth := lt_of_lt_of_le hv hr
      simp only [TrainState.max2DSizeD, Option.getD_some, if_pos hv]
      exact max_le hs ((div_le_one hw).mpr hr)
    · simp only [TrainState.max2DSizeD, Option.getD_some, if_neg hv]
      exact hs
  · exact hs

theorem runAfterTrain_max2DSizeD_le_one {n : ℕ} (stop : ℕ)
    (l : List (ℕ × StepData n)) (i : Fin n) :
    ∀ s : TrainState n,
    (∀ p ∈ l, p.2.radii i ≤ max p.2.lastHeight p.2.lastWidth) →
    s.max2DSizeD i ≤ 1 → (runAfterTrain stop l s).max2DSizeD i ≤ 1 := by
  induction l with
  | nil => intro s _ hs; exact hs
  | cons p rest ih =>
    intro s hb hs
    rw [runAfterTrain_cons]
    exact ih _ (fun q hq => hb q (List.mem_cons_of_mem p hq))
      (afterTrain_max2DSizeD_le_one stop p.1 p.2 s i hs
        (hb p (List.mem_cons_self p rest)))

/-- C8: `max2DSize[i]` is non-decreasing across the training run (each
update takes an elementwise maximum), and stays at most 1 whenever every
observed projected radius of primitive `i` is at most
`max(lastHeight, lastWidth)` of its step. -/
theorem max2DSize_mono_and_bounded {n : ℕ} (stop : ℕ)
    (l₁ l₂ l : List (ℕ × StepData n)) (s : TrainState n) (i : Fin n)
    (hb : ∀ p ∈ l, p.2.radii i ≤ max p.2.lastHeight p.2.lastWidth) :
    (runAfterTrain stop l₁ s).max2DSizeD i ≤
      (runAfterTrain stop (l₁ ++ l₂) s).max2DSizeD i ∧
    (runAfterTrain stop l (initialTrainState n)).max2DSizeD i ≤ 1 := by
  constructor
  · rw [runAfterTrain_append]
    exact runAfterTrain_max2DSizeD_le stop l₂ _ i
  · refine runAfterTrain_max2DSizeD_le_one stop l i _ hb ?_
    simp [initialTrainState, TrainState.max2DSizeD]

/-- C8 witness: on the concrete two-step run, with every radius at most
`max(lastHeight, lastWidth) = 10`, the tracked size after one step is at
most the size after both steps, and the final size is at most 1. -/
theorem max2DSize_mono_and_bounded_witness :
    (runAfterTrain 5 [(0, cexStep1)] (initialTrainState 1)).max2DSizeD 0 ≤
      (runAfterTrain 5 ([(0, cexStep1)] ++ [(1, cexStep2)])
        (initialTrainState 1)).max2DSizeD 0 ∧
    (runAfterTrain 5 cexRun (initialTrainState 1)).max2DSizeD 0 ≤ 1 := by
  have h := max2DSize_mono_and_bounded 5 [(0, cexStep1)] [(1, cexStep2)]
    cexRun (initialTrainState 1) 0
    (by norm_num [cexRun, cexStep1, cexStep2])
  exact ⟨h.1, h.2⟩

end Splatting
